import Mathlib

/-!
Shallow embedding of the sui-gas-station core (src/policy.ts, src/errors.ts,
src/coin-pool.ts, src/gas-sponsor.ts) and proofs about it.

Network calls, the BCS codec and the signer are external collaborators; their
outcomes enter the model as explicit parameters (fetched coin lists, parse or
build or sign outcomes, the clock), mirroring the dependency-injection
boundary of the source. Everything on the near side of that boundary is
translated from the TypeScript source.
-/

namespace GasStation

-- ─── errors.ts ──────────────────────────────────────────────────────

/-- Translation of GasStationErrorCode (src/errors.ts lines 8..14). -/
inductive GasStationErrorCode
  | POOL_EXHAUSTED
  | POOL_NOT_INITIALIZED
  | POLICY_VIOLATION
  | BUILD_FAILED
  | SIGN_FAILED
  | INVALID_EFFECTS
  deriving DecidableEq, Repr

/-- Translation of GasStationError (code plus message; the optional details
map is diagnostic only and is not modelled). -/
structure GasStationError where
  code : GasStationErrorCode
  message : String
  deriving DecidableEq, Repr

-- ─── policy.ts: commands and the gas-coin drain check ───────────────

/-- Kinds of PTB command arguments as exposed by the SDK transaction data.
Only the kind tag is inspected by the drain check. -/
inductive ArgKind
  | GasCoin
  | Input (i : Nat)
  | Result (i : Nat)
  | NestedResult (i j : Nat)
  | Pure
  deriving DecidableEq, Repr

/-- The closed sum of PTB commands, with exactly the fields the repository
reads (argument lists and MoveCall targets). -/
inductive Command
  | SplitCoins (coin : ArgKind) (amounts : List ArgKind)
  | TransferObjects (objects : List ArgKind) (address : ArgKind)
  | MergeCoins (destination : ArgKind) (sources : List ArgKind)
  | MoveCall (pkg modName funName : String) (arguments : List ArgKind)
  | MakeMoveVec (elements : List ArgKind)
  | Upgrade (ticket : ArgKind)
  | Publish
  deriving DecidableEq, Repr

/-- Translation of getCommandArguments (src/policy.ts lines 123..147). -/
def getCommandArguments : Command → List ArgKind
  | .SplitCoins coin amounts => coin :: amounts
  | .TransferObjects objects address => objects ++ [address]
  | .MergeCoins destination sources => destination :: sources
  | .MoveCall _ _ _ arguments => arguments
  | .MakeMoveVec elements => elements
  | .Upgrade ticket => [ticket]
  | .Publish => []

/-- The command kind tag, used in error messages. -/
def commandKindName : Command → String
  | .SplitCoins _ _ => "SplitCoins"
  | .TransferObjects _ _ => "TransferObjects"
  | .MergeCoins _ _ => "MergeCoins"
  | .MoveCall _ _ _ _ => "MoveCall"
  | .MakeMoveVec _ => "MakeMoveVec"
  | .Upgrade _ => "Upgrade"
  | .Publish => "Publish"

/-- Inner loop of assertNoGasCoinUsage: scan one command argument list for a
GasCoin argument. -/
def findGasCoinArg : List ArgKind → Option ArgKind
  | [] => none
  | a :: rest => if a = ArgKind.GasCoin then some a else findGasCoinArg rest

/-- Translation of assertNoGasCoinUsage (src/policy.ts lines 101..120):
iterate commands; for each, iterate its arguments; throw POLICY_VIOLATION on
the first GasCoin argument. -/
def assertNoGasCoinUsage : List Command → String → Except GasStationError Unit
  | [], _ => .ok ()
  | command :: rest, sender =>
    match findGasCoinArg (getCommandArguments command) with
    | some _ =>
        .error ⟨.POLICY_VIOLATION,
          commandKindName command ++ " command references GasCoin"⟩
    | none => assertNoGasCoinUsage rest sender

-- ─── types.ts: coin entries and effects ─────────────────────────────

/-- Translation of the CoinEntry status union. -/
inductive CoinStatus
  | available
  | reserved
  deriving DecidableEq, Repr

/-- Translation of CoinEntry (src/types.ts lines 126..133). Balances are
bigint in the source; modelled as Int (gas arithmetic can go negative before
the clamp). -/
structure CoinEntry where
  objectId : String
  version : String
  digest : String
  balance : Int
  status : CoinStatus
  reservedAt : Option Int
  deriving DecidableEq, Repr

/-- An on-chain object reference triple, as in effects.gasObject.reference. -/
structure ObjectRefS where
  objectId : String
  version : String
  digest : String
  deriving DecidableEq, Repr

/-- Translation of the gasUsed record of ExecutionEffects. The source fields
are decimal strings converted with BigInt; modelled as Int directly.
nonRefundableStorageFee is optional in the source interface. -/
structure GasUsedS where
  computationCost : Int
  storageCost : Int
  storageRebate : Int
  nonRefundableStorageFee : Option Int
  deriving DecidableEq, Repr

/-- Translation of ExecutionEffects (src/types.ts lines 109..122), with the
gasObject.reference nesting flattened to one field. -/
structure ExecutionEffects where
  gasObjectReference : ObjectRefS
  gasUsed : GasUsedS
  deriving DecidableEq, Repr

/-- Effects as received by reportExecution before its shape validation: either
nested field may be missing (undefined in the source). -/
structure RawExecutionEffects where
  gasObjectReference : Option ObjectRefS
  gasUsed : Option GasUsedS
  deriving DecidableEq, Repr

/-- Translation of GasCoinReservation (src/types.ts lines 54..59). -/
structure GasCoinReservation where
  objectId : String
  reservedAt : Int
  deriving DecidableEq, Repr

-- ─── coin-pool.ts: the pool state and map helpers ───────────────────

/-- Translation of the CoinPool state: the insertion-ordered coin map plus
the four construction-time parameters. The JS map is modelled as an
insertion-ordered association list keyed by objectId. -/
structure CoinPool where
  coins : List CoinEntry
  targetPoolSize : Nat
  targetCoinBalance : Int
  minCoinBalance : Int
  reservationTimeoutMs : Int
  deriving DecidableEq, Repr

/-- Map.get: first entry with the given objectId. -/
def findEntry (id : String) : List CoinEntry → Option CoinEntry
  | [] => none
  | c :: rest => if c.objectId = id then some c else findEntry id rest

/-- In-place mutation of the entry found by Map.get: rewrite the first entry
with the given objectId, keeping its position. -/
def updateEntry (id : String) (f : CoinEntry → CoinEntry) :
    List CoinEntry → List CoinEntry
  | [] => []
  | c :: rest => if c.objectId = id then f c :: rest else c :: updateEntry id f rest

/-- Map.delete: remove the first entry with the given objectId. -/
def deleteEntry (id : String) : List CoinEntry → List CoinEntry
  | [] => []
  | c :: rest => if c.objectId = id then rest else c :: deleteEntry id rest

/-- Map.set: overwrite in place when the key exists, else append. -/
def setEntry (e : CoinEntry) : List CoinEntry → List CoinEntry
  | [] => [e]
  | c :: rest => if c.objectId = e.objectId then e :: rest else c :: setEntry e rest

-- ─── coin-pool.ts: recycleExpired, reserve, release ─────────────────

/-- The expiry test of recycleExpired (src/coin-pool.ts lines 275..279):
status reserved, reservedAt set, and now minus reservedAt beyond the timeout. -/
def coinExpired (timeoutMs now : Int) (c : CoinEntry) : Bool :=
  c.status == CoinStatus.reserved &&
    (match c.reservedAt with
     | some t => decide (timeoutMs < now - t)
     | none => false)

/-- The deletion loop of recycleExpired: returns the expired objectIds in
iteration order together with the surviving entries. -/
def sweepCoins (timeoutMs now : Int) : List CoinEntry → List String × List CoinEntry
  | [] => ([], [])
  | c :: rest =>
    let r := sweepCoins timeoutMs now rest
    if coinExpired timeoutMs now c then (c.objectId :: r.1, r.2)
    else (r.1, c :: r.2)

/-- Translation of CoinPool.recycleExpired (src/coin-pool.ts lines 272..285):
delete every expired reservation, returning the deleted objectIds. -/
def CoinPool.recycleExpired (p : CoinPool) (now : Int) : List String × CoinPool :=
  let r := sweepCoins p.reservationTimeoutMs now p.coins
  (r.1, { p with coins := r.2 })

/-- The scan loop of reserve: first available entry with balance at least the
required amount is marked reserved and its snapshot returned. -/
def scanReserve (required now : Int) : List CoinEntry → Option CoinEntry × List CoinEntry
  | [] => (none, [])
  | c :: rest =>
    if c.status == CoinStatus.available && decide (required ≤ c.balance) then
      let c2 := { c with status := CoinStatus.reserved, reservedAt := some now }
      (some c2, c2 :: rest)
    else
      let r := scanReserve required now rest
      (r.1, c :: r.2)

/-- Translation of CoinPool.reserve (src/coin-pool.ts lines 183..199): first
recycle expired reservations, then scan for an available coin with balance at
least minBalance (defaulting to minCoinBalance). Date.now() is the explicit
now parameter. -/
def CoinPool.reserve (p : CoinPool) (now : Int) (minBalance : Option Int) :
    Option CoinEntry × CoinPool :=
  let p1 := (p.recycleExpired now).2
  let required := minBalance.getD p1.minCoinBalance
  let r := scanReserve required now p1.coins
  (r.1, { p1 with coins := r.2 })

/-- Translation of CoinPool.release (src/coin-pool.ts lines 204..210): if the
entry exists and is reserved, flip it to available and clear reservedAt. -/
def CoinPool.release (p : CoinPool) (objectId : String) : CoinPool :=
  match findEntry objectId p.coins with
  | some coin =>
    if coin.status = CoinStatus.reserved then
      let freed := fun (c : CoinEntry) =>
        { c with status := CoinStatus.available, reservedAt := none }
      { p with coins := updateEntry objectId freed p.coins }
    else p
  | none => p

-- ─── coin-pool.ts: updateFromEffects ────────────────────────────────

/-- The consumed-gas sum of updateFromEffects (src/coin-pool.ts lines
236..240): computation plus storage minus rebate plus the optional
nonRefundableStorageFee defaulted to zero. -/
def totalGasOf (g : GasUsedS) : Int :=
  g.computationCost + g.storageCost - g.storageRebate +
    g.nonRefundableStorageFee.getD 0

/-- Translation of CoinPool.updateFromEffects (src/coin-pool.ts lines
217..258). -/
def CoinPool.updateFromEffects (p : CoinPool) (effects : ExecutionEffects)
    (objectId : String) : CoinPool :=
  match findEntry objectId p.coins with
  | none => p
  | some coin =>
    let gasRef := effects.gasObjectReference
    if gasRef.objectId ≠ objectId then
      { p with coins := deleteEntry objectId p.coins }
    else
      let totalGas := totalGasOf effects.gasUsed
      let remaining := if coin.balance - totalGas < 0 then 0 else coin.balance - totalGas
      if p.minCoinBalance ≤ remaining then
        let upd := fun (c : CoinEntry) =>
          { c with version := gasRef.version, digest := gasRef.digest,
                   balance := remaining, status := CoinStatus.available,
                   reservedAt := none }
        { p with coins := updateEntry objectId upd p.coins }
      else
        { p with coins := deleteEntry objectId p.coins }

-- ─── coin-pool.ts: initialize, replenish, revalidate ────────────────

/-- One coin as returned by the list-coins RPC (balance decimal string read
with BigInt; modelled as Int). -/
structure FetchedCoin where
  coinObjectId : String
  version : String
  digest : String
  balance : Int
  deriving DecidableEq, Repr

/-- The pool entry built from a right-sized fetched coin. -/
def toAvailableEntry (c : FetchedCoin) : CoinEntry :=
  ⟨c.coinObjectId, c.version, c.digest, c.balance, CoinStatus.available, none⟩

/-- The usable classification of initialize and replenish: minCoinBalance up
to twice targetCoinBalance inclusive. -/
def usableCoin (p : CoinPool) (c : FetchedCoin) : Bool :=
  decide (p.minCoinBalance ≤ c.balance) && decide (c.balance ≤ p.targetCoinBalance * 2)

/-- The source classification: strictly above twice targetCoinBalance. -/
def sourceCoin (p : CoinPool) (c : FetchedCoin) : Bool :=
  decide (p.targetCoinBalance * 2 < c.balance)

/-- Insertion of the created refs of a split transaction, each tracked at
balance targetCoinBalance (src/coin-pool.ts lines 492..502). -/
def insertCreated (p : CoinPool) (created : List ObjectRefS) : CoinPool :=
  let insertOne := fun (acc : List CoinEntry) (r : ObjectRefS) =>
    setEntry ⟨r.objectId, r.version, r.digest, p.targetCoinBalance,
      CoinStatus.available, none⟩ acc
  { p with coins := created.foldl insertOne p.coins }

/-- Tail of CoinPool.splitCoins after the split transaction executes: the
effects created list is read; an empty list throws (the source raises a plain
Error whose text starts with Split transaction succeeded but no created
coins). The created refs are the external execution outcome. -/
def splitCoinsStep (p : CoinPool) (created : List ObjectRefS) :
    CoinPool × Option String :=
  if created = [] then
    (p, some "Split transaction succeeded but no created coins found in effects")
  else (insertCreated p created, none)

/-- Translation of CoinPool.initialize (src/coin-pool.ts lines 56..110) with
the fetched coin list and the split-transaction outcome as parameters.
Returns the final pool state and the thrown error, if any. -/
def CoinPool.initializePool (p : CoinPool) (existing : List FetchedCoin)
    (created : List ObjectRefS) : CoinPool × Option String :=
  let p0 : CoinPool := { p with coins := [] }
  let usable := existing.filter (usableCoin p0)
  let sourceRefs := existing.filter (sourceCoin p0)
  let admitted := (usable.take p0.targetPoolSize).foldl
    (fun acc c => setEntry (toAvailableEntry c) acc) []
  let p1 : CoinPool := { p0 with coins := admitted }
  let needed : Int := (p1.targetPoolSize : Int) - p1.coins.length
  if 0 < needed ∧ sourceRefs ≠ [] then splitCoinsStep p1 created
  else (p1, none)

/-- Translation of CoinPool.replenish (src/coin-pool.ts lines 119..177). -/
def CoinPool.replenishPool (p : CoinPool) (existing : List FetchedCoin)
    (created : List ObjectRefS) : CoinPool × Option String :=
  let trackedIds := p.coins.map (fun c => c.objectId)
  let needed : Int := (p.targetPoolSize : Int) - p.coins.length
  if needed ≤ 0 then (p, none)
  else
    let fresh := existing.filter (fun c => ¬ trackedIds.contains c.coinObjectId)
    let usable := fresh.filter (usableCoin p)
    let sourceRefs := fresh.filter (sourceCoin p)
    let toAdd := usable.take needed.toNat
    let admitted := toAdd.foldl (fun acc c => setEntry (toAvailableEntry c) acc) p.coins
    let p1 : CoinPool := { p with coins := admitted }
    let stillNeeded := needed - toAdd.length
    if 0 < stillNeeded ∧ sourceRefs ≠ [] then splitCoinsStep p1 created
    else (p1, none)

/-- One multiGetObjects response item for a tracked id: the current version
and digest, plus the decoded content balance field when the content is
present with a string balance. -/
structure OnChainObject where
  version : String
  digest : String
  balanceField : Option Int
  deriving DecidableEq, Repr

/-- Per-entry step of revalidatePool: reserved entries are skipped; live
entries get the fetched ref (and balance when decodable); missing objects are
deleted. -/
def revalidateEntry (fetch : String → Option OnChainObject) (c : CoinEntry) :
    Option CoinEntry :=
  if c.status = CoinStatus.reserved then some c
  else
    match fetch c.objectId with
    | some obj =>
      some { c with version := obj.version, digest := obj.digest,
                    balance := obj.balanceField.getD c.balance }
    | none => none

/-- Translation of CoinPool.revalidatePool (src/coin-pool.ts lines 291..329)
with the batched object fetch as a parameter keyed by objectId. -/
def CoinPool.revalidatePool (p : CoinPool) (fetch : String → Option OnChainObject) :
    CoinPool :=
  { p with coins := p.coins.filterMap (revalidateEntry fetch) }

-- ─── gas-sponsor.ts: price cache decision ───────────────────────────

/-- Translation of GasPriceCache (src/types.ts lines 135..142). -/
structure GasPriceCache where
  price : Int
  epoch : String
  expiration : Int
  fetchedAt : Int
  deriving DecidableEq, Repr

/-- The three ways the cached branch of getGasPrice can go before a network
refresh: return the cached price, wait a computed number of milliseconds then
refresh, or refresh immediately (no cache). -/
inductive GasPriceStep
  | cachedPrice (price : Int)
  | waitThenRefresh (waitMs : Int)
  | refreshNow
  deriving DecidableEq, Repr

/-- Translation of the cache inspection of GasSponsor.getGasPrice
(src/gas-sponsor.ts): remaining is expiration minus epochBoundaryWindow minus
now; a positive remaining returns the cached price; otherwise the wait is
min(max(expiration + epochBoundaryWindow - now, 1000), 30000) where 30000 is
MAX_EPOCH_BOUNDARY_WAIT. -/
def getGasPriceStep (cache : Option GasPriceCache) (epochBoundaryWindow now : Int) :
    GasPriceStep :=
  match cache with
  | some c =>
    let remaining := c.expiration - epochBoundaryWindow - now
    if 0 < remaining then .cachedPrice c.price
    else .waitThenRefresh (min (max (c.expiration + epochBoundaryWindow - now) 1000) 30000)
  | none => .refreshNow

-- ─── gas-sponsor.ts: sponsorTransaction and reportExecution ─────────

/-- Translation of SponsorPolicy (src/types.ts lines 75..98); the
customValidator callback is an external collaborator whose outcome is folded
into the policy-validation oracle of SponsorEnv. -/
structure SponsorPolicy where
  maxBudgetPerTx : Option Int
  allowedMoveTargets : Option (List String)
  blockedAddresses : Option (List String)
  allowGasCoinUsage : Option Bool
  deriving DecidableEq, Repr

/-- Translation of SponsoredTransaction (src/types.ts lines 41..52). -/
structure SponsoredTransaction where
  transactionBytes : String
  sponsorSignature : String
  gasBudget : Int
  gasPrice : Int
  reservation : GasCoinReservation
  deriving DecidableEq, Repr

/-- Outcome of tx.build plus the budget read back from the built bytes. -/
structure BuildOutcome where
  bytesB64 : String
  builtBudget : Int
  deriving DecidableEq, Repr

/-- Outcomes of the external collaborators consulted by sponsorTransaction:
the validatePolicy call (codec, address normalization and user callback), the
kind-bytes parse, the build, the signer, the gas price and the clock. A none
outcome models the corresponding call throwing. -/
structure SponsorEnv where
  validateOutcome : Option GasStationError
  parsedCommands : Option (List Command)
  buildOutcome : Option BuildOutcome
  signOutcome : Option String
  gasPrice : Int
  now : Int

/-- One character of the address regex character class 0-9a-fA-F. -/
def hexDigit (ch : Char) : Bool :=
  (decide ('0' ≤ ch) && decide (ch ≤ '9')) ||
  (decide ('a' ≤ ch) && decide (ch ≤ 'f')) ||
  (decide ('A' ≤ ch) && decide (ch ≤ 'F'))

/-- The sender-address format test of sponsorTransaction: the regex
0x followed by 1 to 64 hex digits, anchored at both ends. -/
def suiAddressValid (s : String) : Bool :=
  match s.toList with
  | '0' :: 'x' :: rest =>
    decide (1 ≤ rest.length) && decide (rest.length ≤ 64) && rest.all hexDigit
  | _ => false

/-- The effective allowGasCoinUsage flag: the JS guard not
policy?.allowGasCoinUsage skips the drain check exactly when a policy is in
effect and its allowGasCoinUsage is true. -/
def effectiveAllowGasCoin (policy : Option SponsorPolicy) : Bool :=
  (policy.bind (fun pl => pl.allowGasCoinUsage)).getD false

/-- The effective maxBudgetPerTx read by the post-build check. -/
def effectiveMaxBudget (policy : Option SponsorPolicy) : Option Int :=
  policy.bind (fun pl => pl.maxBudgetPerTx)

/-- The try-block of sponsorTransaction (steps 4..10 of the source), entered
after a coin was reserved; any error here is propagated by the caller after
releasing the reservation. -/
def sponsorTryBlock (env : SponsorEnv) (sender : String)
    (policy : Option SponsorPolicy) (coin : CoinEntry) :
    Except GasStationError SponsoredTransaction :=
  match env.parsedCommands with
  | none => .error ⟨.BUILD_FAILED, "Invalid transaction kind bytes"⟩
  | some commands =>
    let drain : Except GasStationError Unit :=
      if effectiveAllowGasCoin policy then .ok ()
      else assertNoGasCoinUsage commands sender
    match drain with
    | .error e => .error e
    | .ok _ =>
      match env.buildOutcome with
      | none => .error ⟨.BUILD_FAILED, "Transaction build failed"⟩
      | some built =>
        match env.signOutcome with
        | none => .error ⟨.SIGN_FAILED, "Sponsor signing failed"⟩
        | some sig =>
          match effectiveMaxBudget policy with
          | some m =>
            if m < built.builtBudget then
              .error ⟨.POLICY_VIOLATION,
                "Auto-estimated gas budget exceeds policy max"⟩
            else
              .ok ⟨built.bytesB64, sig, built.builtBudget, env.gasPrice,
                ⟨coin.objectId, coin.reservedAt.getD env.now⟩⟩
          | none =>
            .ok ⟨built.bytesB64, sig, built.builtBudget, env.gasPrice,
              ⟨coin.objectId, coin.reservedAt.getD env.now⟩⟩

/-- Translation of GasSponsor.sponsorTransaction (src/gas-sponsor.ts): guard
on initialization, effective policy, sender format, gas price, policy
validation, coin reservation, then the try-block with release on error.
Returns the result together with the pool state after the call. -/
def sponsorTransaction (initialized : Bool) (pool : CoinPool)
    (env : SponsorEnv) (sender : String) (gasBudget : Option Int)
    (requestPolicy defaultPolicy : Option SponsorPolicy) :
    Except GasStationError SponsoredTransaction × CoinPool :=
  if initialized = false then
    (.error ⟨.POOL_NOT_INITIALIZED, "Call initialize before sponsoring"⟩, pool)
  else
    let policy := requestPolicy.orElse fun _ => defaultPolicy
    if suiAddressValid sender = false then
      (.error ⟨.POLICY_VIOLATION, "Invalid sender address format"⟩, pool)
    else
      match policy, env.validateOutcome with
      | some _, some e => (.error e, pool)
      | _, _ =>
        let r := pool.reserve env.now gasBudget
        match r.1 with
        | none => (.error ⟨.POOL_EXHAUSTED, "No gas coins available"⟩, r.2)
        | some coin =>
          match sponsorTryBlock env sender policy coin with
          | .error e => (.error e, r.2.release coin.objectId)
          | .ok out => (.ok out, r.2)

/-- Translation of GasSponsor.reportExecution (src/gas-sponsor.ts): validate
the effects shape (gasObject.reference and gasUsed both present), then
delegate to updateFromEffects keyed by reservation.objectId. -/
def reportExecution (pool : CoinPool) (reservation : GasCoinReservation)
    (effects : RawExecutionEffects) : Except GasStationError CoinPool :=
  match effects.gasObjectReference, effects.gasUsed with
  | some ref, some gu => .ok (pool.updateFromEffects ⟨ref, gu⟩ reservation.objectId)
  | _, _ => .error ⟨.INVALID_EFFECTS, "Invalid execution effects"⟩

-- ─── operation sequences over the pool ──────────────────────────────

/-- One pool operation, with the external outcomes it consumes as data. -/
inductive PoolOp
  | initOp (existing : List FetchedCoin) (created : List ObjectRefS)
  | replenishOp (existing : List FetchedCoin) (created : List ObjectRefS)
  | reserveOp (now : Int) (minBalance : Option Int)
  | releaseOp (id : String)
  | updateOp (effects : ExecutionEffects) (id : String)
  | recycleOp (now : Int)

/-- The pool state reached by one operation (for the fallible operations,
the state left behind whether or not they throw). -/
def applyOp (p : CoinPool) : PoolOp → CoinPool
  | .initOp ex cr => (p.initializePool ex cr).1
  | .replenishOp ex cr => (p.replenishPool ex cr).1
  | .reserveOp now mb => (p.reserve now mb).2
  | .releaseOp id => p.release id
  | .updateOp e id => p.updateFromEffects e id
  | .recycleOp now => (p.recycleExpired now).2

/-- The pool state after a sequence of operations. -/
def applyOps (p : CoinPool) (ops : List PoolOp) : CoinPool :=
  ops.foldl applyOp p

-- ─── helper lemmas on the map operations ────────────────────────────

theorem findGasCoinArg_eq_none (args : List ArgKind) :
    findGasCoinArg args = none ↔ ArgKind.GasCoin ∉ args := by
  induction args with
  | nil => simp [findGasCoinArg]
  | cons a rest ih =>
    by_cases h : a = ArgKind.GasCoin
    · subst h; simp [findGasCoinArg]
    · have h2 : ArgKind.GasCoin ≠ a := fun hh => h hh.symm
      simp [findGasCoinArg, h, ih, List.mem_cons, h2]

theorem assertNoGasCoinUsage_ok_iff (commands : List Command) (sender : String) :
    assertNoGasCoinUsage commands sender = .ok () ↔
      ∀ c ∈ commands, ArgKind.GasCoin ∉ getCommandArguments c := by
  induction commands with
  | nil => simp [assertNoGasCoinUsage]
  | cons cmd rest ih =>
    cases hf : findGasCoinArg (getCommandArguments cmd) with
    | some a =>
      have hmem : ArgKind.GasCoin ∈ getCommandArguments cmd := by
        by_contra hno
        rw [← findGasCoinArg_eq_none] at hno
        rw [hf] at hno
        exact Option.noConfusion hno
      simp only [assertNoGasCoinUsage, hf]
      constructor
      · intro habs; exact Except.noConfusion habs
      · intro h; exact absurd hmem (h cmd (List.mem_cons_self _ _))
    | none =>
      have hno : ArgKind.GasCoin ∉ getCommandArguments cmd :=
        (findGasCoinArg_eq_none _).mp hf
      simp only [assertNoGasCoinUsage, hf, ih]
      constructor
      · intro h c hc
        rcases List.mem_cons.mp hc with rfl | hc2
        · exact hno
        · exact h c hc2
      · intro h c hc
        exact h c (List.mem_cons_of_mem _ hc)

theorem assertNoGasCoinUsage_error_code (commands : List Command) (sender : String)
    (e : GasStationError) (h : assertNoGasCoinUsage commands sender = .error e) :
    e.code = GasStationErrorCode.POLICY_VIOLATION := by
  induction commands with
  | nil => simp [assertNoGasCoinUsage] at h
  | cons cmd rest ih =>
    cases hf : findGasCoinArg (getCommandArguments cmd) with
    | some a =>
      simp [assertNoGasCoinUsage, hf] at h
      rw [← h]
    | none =>
      simp [assertNoGasCoinUsage, hf] at h
      exact ih h

theorem findEntry_updateEntry (id : String) (f : CoinEntry → CoinEntry)
    (l : List CoinEntry) (hpres : ∀ c, (f c).objectId = c.objectId) :
    findEntry id (updateEntry id f l) = (findEntry id l).map f := by
  induction l with
  | nil => simp [findEntry, updateEntry]
  | cons c rest ih =>
    by_cases h : c.objectId = id
    · simp [findEntry, updateEntry, h, hpres c]
    · simp [findEntry, updateEntry, h, ih]

theorem deleteEntry_length (id : String) (l : List CoinEntry) (c : CoinEntry)
    (h : findEntry id l = some c) :
    (deleteEntry id l).length + 1 = l.length := by
  induction l with
  | nil => simp [findEntry] at h
  | cons c0 rest ih =>
    by_cases h0 : c0.objectId = id
    · simp [deleteEntry, h0]
    · simp only [findEntry, h0, if_false] at h
      simp [deleteEntry, h0, ih h]

theorem findEntry_deleteEntry (id : String) (l : List CoinEntry)
    (hnodup : (l.map fun c => c.objectId).Nodup) :
    findEntry id (deleteEntry id l) = none := by
  induction l with
  | nil => simp [findEntry, deleteEntry]
  | cons c0 rest ih =>
    simp only [List.map_cons, List.nodup_cons] at hnodup
    by_cases h0 : c0.objectId = id
    · subst h0
      cases hfind : findEntry c0.objectId rest with
      | none => simp [deleteEntry, hfind]
      | some c =>
        exfalso
        apply hnodup.1
        clear ih hnodup
        induction rest with
        | nil => simp [findEntry] at hfind
        | cons c1 r2 ih2 =>
          by_cases h1 : c1.objectId = c0.objectId
          · simp [h1]
          · simp only [findEntry, h1, if_false] at hfind
            simp [ih2 hfind]
    · simp [deleteEntry, h0, findEntry, ih hnodup.2]

theorem deleteEntry_subset (id : String) (l : List CoinEntry) :
    ∀ c ∈ deleteEntry id l, c ∈ l := by
  induction l with
  | nil => simp [deleteEntry]
  | cons c0 rest ih =>
    intro c hc
    by_cases h : c0.objectId = id
    · simp only [deleteEntry, h, if_true] at hc
      exact List.mem_cons_of_mem _ hc
    · simp only [deleteEntry, h, if_false] at hc
      rcases List.mem_cons.mp hc with rfl | hc2
      · exact List.mem_cons_self _ _
      · exact List.mem_cons_of_mem _ (ih c hc2)

theorem updateEntry_mem (id : String) (f : CoinEntry → CoinEntry)
    (l : List CoinEntry) : ∀ c ∈ updateEntry id f l, c ∈ l ∨ ∃ c0 ∈ l, c = f c0 := by
  induction l with
  | nil => simp [updateEntry]
  | cons c0 rest ih =>
    intro c hc
    by_cases h : c0.objectId = id
    · simp only [updateEntry, h, if_true] at hc
      rcases List.mem_cons.mp hc with rfl | hc2
      · exact Or.inr ⟨c0, List.mem_cons_self _ _, rfl⟩
      · exact Or.inl (List.mem_cons_of_mem _ hc2)
    · simp only [updateEntry, h, if_false] at hc
      rcases List.mem_cons.mp hc with rfl | hc2
      · exact Or.inl (List.mem_cons_self _ _)
      · rcases ih c hc2 with h2 | ⟨c1, h1, rfl⟩
        · exact Or.inl (List.mem_cons_of_mem _ h2)
        · exact Or.inr ⟨c1, List.mem_cons_of_mem _ h1, rfl⟩

theorem setEntry_mem (e : CoinEntry) (l : List CoinEntry) :
    ∀ c ∈ setEntry e l, c = e ∨ c ∈ l := by
  induction l with
  | nil => simp [setEntry]
  | cons c0 rest ih =>
    intro c hc
    by_cases h : c0.objectId = e.objectId
    · simp only [setEntry, h, if_true] at hc
      rcases List.mem_cons.mp hc with rfl | hc2
      · exact Or.inl rfl
      · exact Or.inr (List.mem_cons_of_mem _ hc2)
    · simp only [setEntry, h, if_false] at hc
      rcases List.mem_cons.mp hc with rfl | hc2
      · exact Or.inr (List.mem_cons_self _ _)
      · rcases ih c hc2 with rfl | h2
        · exact Or.inl rfl
        · exact Or.inr (List.mem_cons_of_mem _ h2)

theorem mem_foldl_setEntry {α : Type} (g : α → CoinEntry) (xs : List α)
    (init : List CoinEntry) :
    ∀ c ∈ xs.foldl (fun acc x => setEntry (g x) acc) init,
      c ∈ init ∨ ∃ x ∈ xs, c = g x := by
  induction xs generalizing init with
  | nil => intro c hc; exact Or.inl hc
  | cons x rest ih =>
    intro c hc
    simp only [List.foldl_cons] at hc
    rcases ih (setEntry (g x) init) c hc with hinit | ⟨y, hy, rfl⟩
    · rcases setEntry_mem (g x) init c hinit with rfl | h2
      · exact Or.inr ⟨x, List.mem_cons_self _ _, rfl⟩
      · exact Or.inl h2
    · exact Or.inr ⟨y, List.mem_cons_of_mem _ hy, rfl⟩

-- ─── helper lemmas on sweep and scan ────────────────────────────────

theorem sweepCoins_kept_mem (t now : Int) (l : List CoinEntry) :
    ∀ c ∈ (sweepCoins t now l).2, c ∈ l ∧ coinExpired t now c = false := by
  induction l with
  | nil => simp [sweepCoins]
  | cons c0 rest ih =>
    intro c hc
    cases h : coinExpired t now c0 with
    | true =>
      simp only [sweepCoins, h, if_true] at hc
      rcases ih c hc with ⟨h1, h2⟩
      exact ⟨List.mem_cons_of_mem _ h1, h2⟩
    | false =>
      simp only [sweepCoins, h, if_false] at hc
      rcases List.mem_cons.mp hc with rfl | hc2
      · exact ⟨List.mem_cons_self _ _, h⟩
      · rcases ih c hc2 with ⟨h1, h2⟩
        exact ⟨List.mem_cons_of_mem _ h1, h2⟩

theorem sweepCoins_expired_listed (t now : Int) (l : List CoinEntry) :
    ∀ c ∈ l, coinExpired t now c = true → c.objectId ∈ (sweepCoins t now l).1 := by
  induction l with
  | nil => simp
  | cons c0 rest ih =>
    intro c hc hexp
    rcases List.mem_cons.mp hc with rfl | hc2
    · simp [sweepCoins, hexp]
    · cases h : coinExpired t now c0 with
      | true => simp only [sweepCoins, h, if_true]
                exact List.mem_cons_of_mem _ (ih c hc2 hexp)
      | false => simp only [sweepCoins, h, if_false]
                 exact ih c hc2 hexp

theorem sweepCoins_ids_expired (t now : Int) (l : List CoinEntry) :
    ∀ id ∈ (sweepCoins t now l).1,
      ∃ c ∈ l, c.objectId = id ∧ coinExpired t now c = true := by
  induction l with
  | nil => simp [sweepCoins]
  | cons c0 rest ih =>
    intro id hid
    cases h : coinExpired t now c0 with
    | true =>
      simp only [sweepCoins, h, if_true] at hid
      rcases List.mem_cons.mp hid with rfl | hid2
      · exact ⟨c0, List.mem_cons_self _ _, rfl, h⟩
      · rcases ih id hid2 with ⟨c, hc, rfl, hexp⟩
        exact ⟨c, List.mem_cons_of_mem _ hc, rfl, hexp⟩
    | false =>
      simp only [sweepCoins, h, if_false] at hid
      rcases ih id hid with ⟨c, hc, rfl, hexp⟩
      exact ⟨c, List.mem_cons_of_mem _ hc, rfl, hexp⟩

theorem scanReserve_mem (req now : Int) (l : List CoinEntry) :
    ∀ c ∈ (scanReserve req now l).2,
      c ∈ l ∨ ∃ c0 ∈ l, c = { c0 with status := CoinStatus.reserved, reservedAt := some now } := by
  induction l with
  | nil => simp [scanReserve]
  | cons c0 rest ih =>
    intro c hc
    by_cases h : (c0.status == CoinStatus.available && decide (req ≤ c0.balance)) = true
    · simp only [scanReserve, h, if_true] at hc
      rcases List.mem_cons.mp hc with rfl | hc2
      · exact Or.inr ⟨c0, List.mem_cons_self _ _, rfl⟩
      · exact Or.inl (List.mem_cons_of_mem _ hc2)
    · simp only [scanReserve, h, if_false] at hc
      rcases List.mem_cons.mp hc with rfl | hc2
      · exact Or.inl (List.mem_cons_self _ _)
      · rcases ih c hc2 with h2 | ⟨c1, h1, rfl⟩
        · exact Or.inl (List.mem_cons_of_mem _ h2)
        · exact Or.inr ⟨c1, List.mem_cons_of_mem _ h1, rfl⟩

-- ─── every pool operation only rewrites the coins map ───────────────

theorem release_coinsOnly (p : CoinPool) (id : String) :
    ∃ cs, p.release id = { p with coins := cs } := by
  unfold CoinPool.release
  cases findEntry id p.coins with
  | none => exact ⟨p.coins, rfl⟩
  | some c =>
    dsimp only
    by_cases h : c.status = CoinStatus.reserved
    · rw [if_pos h]; exact ⟨_, rfl⟩
    · rw [if_neg h]; exact ⟨p.coins, rfl⟩

theorem updateFromEffects_coinsOnly (p : CoinPool) (e : ExecutionEffects)
    (id : String) : ∃ cs, p.updateFromEffects e id = { p with coins := cs } := by
  unfold CoinPool.updateFromEffects
  cases findEntry id p.coins with
  | none => exact ⟨p.coins, rfl⟩
  | some coin =>
    dsimp only
    split
    · exact ⟨_, rfl⟩
    · split <;> split <;> exact ⟨_, rfl⟩

theorem initializePool_coinsOnly (p : CoinPool) (ex : List FetchedCoin)
    (cr : List ObjectRefS) :
    ∃ cs es, p.initializePool ex cr = ({ p with coins := cs }, es) := by
  unfold CoinPool.initializePool splitCoinsStep insertCreated
  dsimp only
  split
  · split
    · exact ⟨_, _, rfl⟩
    · exact ⟨_, _, rfl⟩
  · exact ⟨_, _, rfl⟩

theorem replenishPool_coinsOnly (p : CoinPool) (ex : List FetchedCoin)
    (cr : List ObjectRefS) :
    ∃ cs es, p.replenishPool ex cr = ({ p with coins := cs }, es) := by
  unfold CoinPool.replenishPool splitCoinsStep insertCreated
  dsimp only
  split
  · exact ⟨p.coins, none, rfl⟩
  · split
    · split
      · exact ⟨_, _, rfl⟩
      · exact ⟨_, _, rfl⟩
    · exact ⟨_, _, rfl⟩

theorem applyOp_coinsOnly (p : CoinPool) (op : PoolOp) :
    ∃ cs, applyOp p op = { p with coins := cs } := by
  cases op with
  | initOp ex cr =>
    obtain ⟨cs, es, h⟩ := initializePool_coinsOnly p ex cr
    exact ⟨cs, by show (p.initializePool ex cr).1 = _; rw [h]⟩
  | replenishOp ex cr =>
    obtain ⟨cs, es, h⟩ := replenishPool_coinsOnly p ex cr
    exact ⟨cs, by show (p.replenishPool ex cr).1 = _; rw [h]⟩
  | reserveOp now mb => exact ⟨_, rfl⟩
  | releaseOp id => exact release_coinsOnly p id
  | updateOp e id => exact updateFromEffects_coinsOnly p e id
  | recycleOp now => exact ⟨_, rfl⟩

theorem applyOp_minCoinBalance (p : CoinPool) (op : PoolOp) :
    (applyOp p op).minCoinBalance = p.minCoinBalance := by
  obtain ⟨cs, h⟩ := applyOp_coinsOnly p op
  rw [h]

theorem applyOp_targetCoinBalance (p : CoinPool) (op : PoolOp) :
    (applyOp p op).targetCoinBalance = p.targetCoinBalance := by
  obtain ⟨cs, h⟩ := applyOp_coinsOnly p op
  rw [h]

-- ─── balance invariant preservation ─────────────────────────────────

theorem usableCoin_min {p : CoinPool} {c : FetchedCoin} (h : usableCoin p c = true) :
    p.minCoinBalance ≤ c.balance := by
  simp only [usableCoin, Bool.and_eq_true, decide_eq_true_eq] at h
  exact h.1

theorem insertCreated_inv (p : CoinPool) (cr : List ObjectRefS)
    (hmt : p.minCoinBalance ≤ p.targetCoinBalance)
    (hinv : ∀ c ∈ p.coins, p.minCoinBalance ≤ c.balance) :
    ∀ c ∈ (insertCreated p cr).coins, p.minCoinBalance ≤ c.balance := by
  intro c hc
  unfold insertCreated at hc
  dsimp only at hc
  rcases mem_foldl_setEntry _ cr p.coins c hc with h | ⟨r, hr, rfl⟩
  · exact hinv c h
  · exact hmt

theorem splitCoinsStep_inv (p : CoinPool) (cr : List ObjectRefS)
    (hmt : p.minCoinBalance ≤ p.targetCoinBalance)
    (hinv : ∀ c ∈ p.coins, p.minCoinBalance ≤ c.balance) :
    ∀ c ∈ ((splitCoinsStep p cr).1).coins, p.minCoinBalance ≤ c.balance := by
  unfold splitCoinsStep
  split
  · exact hinv
  · exact insertCreated_inv p cr hmt hinv

theorem initializePool_inv (p : CoinPool) (ex : List FetchedCoin)
    (cr : List ObjectRefS) (hmt : p.minCoinBalance ≤ p.targetCoinBalance) :
    ∀ c ∈ ((p.initializePool ex cr).1).coins, p.minCoinBalance ≤ c.balance := by
  unfold CoinPool.initializePool
  dsimp only
  have hadm : ∀ c ∈ ((ex.filter (usableCoin { p with coins := [] })).take
      p.targetPoolSize).foldl (fun acc c => setEntry (toAvailableEntry c) acc) [],
      p.minCoinBalance ≤ c.balance := by
    intro c hc
    rcases mem_foldl_setEntry _ _ _ c hc with h | ⟨x, hx, rfl⟩
    · simp at h
    · have hx2 := List.take_subset _ _ hx
      have := (List.mem_filter.mp hx2).2
      exact usableCoin_min this
  split
  · exact splitCoinsStep_inv _ cr hmt hadm
  · exact hadm

theorem replenishPool_inv (p : CoinPool) (ex : List FetchedCoin)
    (cr : List ObjectRefS) (hmt : p.minCoinBalance ≤ p.targetCoinBalance)
    (hinv : ∀ c ∈ p.coins, p.minCoinBalance ≤ c.balance) :
    ∀ c ∈ ((p.replenishPool ex cr).1).coins, p.minCoinBalance ≤ c.balance := by
  unfold CoinPool.replenishPool
  dsimp only
  split
  · exact hinv
  · have hadm : ∀ c ∈ (((ex.filter fun c =>
        ¬ (p.coins.map fun c => c.objectId).contains c.coinObjectId).filter
        (usableCoin p)).take ((p.targetPoolSize : Int) - p.coins.length).toNat).foldl
        (fun acc c => setEntry (toAvailableEntry c) acc) p.coins,
        p.minCoinBalance ≤ c.balance := by
      intro c hc
      rcases mem_foldl_setEntry _ _ _ c hc with h | ⟨x, hx, rfl⟩
      · exact hinv c h
      · have hx2 := List.take_subset _ _ hx
        have := (List.mem_filter.mp hx2).2
        exact usableCoin_min this
    split
    · exact splitCoinsStep_inv _ cr hmt hadm
    · exact hadm

theorem release_inv (p : CoinPool) (id : String)
    (hinv : ∀ c ∈ p.coins, p.minCoinBalance ≤ c.balance) :
    ∀ c ∈ (p.release id).coins, p.minCoinBalance ≤ c.balance := by
  unfold CoinPool.release
  cases findEntry id p.coins with
  | none => exact hinv
  | some c1 =>
    dsimp only
    by_cases h : c1.status = CoinStatus.reserved
    · rw [if_pos h]
      intro c hc
      rcases updateEntry_mem _ _ _ c hc with h2 | ⟨c0, h0, rfl⟩
      · exact hinv c h2
      · exact hinv c0 h0
    · rw [if_neg h]; exact hinv

theorem updateFromEffects_inv (p : CoinPool) (e : ExecutionEffects) (id : String)
    (hinv : ∀ c ∈ p.coins, p.minCoinBalance ≤ c.balance) :
    ∀ c ∈ (p.updateFromEffects e id).coins, p.minCoinBalance ≤ c.balance := by
  unfold CoinPool.updateFromEffects
  cases findEntry id p.coins with
  | none => exact hinv
  | some coin =>
    dsimp only
    split
    · intro c hc; exact hinv c (deleteEntry_subset _ _ c hc)
    · split
      · split
        · next h2 =>
          intro c hc
          rcases updateEntry_mem _ _ _ c hc with hx | ⟨c0, h0, rfl⟩
          · exact hinv c hx
          · exact h2
        · intro c hc; exact hinv c (deleteEntry_subset _ _ c hc)
      · split
        · next h2 =>
          intro c hc
          rcases updateEntry_mem _ _ _ c hc with hx | ⟨c0, h0, rfl⟩
          · exact hinv c hx
          · exact h2
        · intro c hc; exact hinv c (deleteEntry_subset _ _ c hc)

theorem reserve_inv (p : CoinPool) (now : Int) (mb : Option Int)
    (hinv : ∀ c ∈ p.coins, p.minCoinBalance ≤ c.balance) :
    ∀ c ∈ ((p.reserve now mb).2).coins, p.minCoinBalance ≤ c.balance := by
  intro c hc
  rcases scanReserve_mem _ _ _ c hc with h | ⟨c0, h0, rfl⟩
  · exact hinv c (sweepCoins_kept_mem _ _ _ c h).1
  · exact hinv c0 (sweepCoins_kept_mem _ _ _ c0 h0).1

theorem applyOp_inv (p : CoinPool) (op : PoolOp)
    (hmt : p.minCoinBalance ≤ p.targetCoinBalance)
    (hinv : ∀ c ∈ p.coins, p.minCoinBalance ≤ c.balance) :
    ∀ c ∈ (applyOp p op).coins, p.minCoinBalance ≤ c.balance := by
  cases op with
  | initOp ex cr => exact initializePool_inv p ex cr hmt
  | replenishOp ex cr => exact replenishPool_inv p ex cr hmt hinv
  | reserveOp now mb => exact reserve_inv p now mb hinv
  | releaseOp id => exact release_inv p id hinv
  | updateOp e id => exact updateFromEffects_inv p e id hinv
  | recycleOp now =>
    intro c hc
    exact hinv c (sweepCoins_kept_mem _ _ _ c hc).1

-- ─── claim theorems: pool level ─────────────────────────────────────

theorem coinExpired_iff (t now : Int) (c : CoinEntry) :
    coinExpired t now c = true ↔
      (c.status = CoinStatus.reserved ∧ ∃ tr, c.reservedAt = some tr ∧ t < now - tr) := by
  cases hr : c.reservedAt with
  | none => simp [coinExpired, hr]
  | some tr => simp [coinExpired, hr, Bool.and_eq_true, beq_iff_eq, decide_eq_true_eq]

/-- C6: after recycleExpired(now) no reserved entry older than the timeout
remains; surviving entries are unchanged members of the previous pool (never
flipped back to available); every expired entry has its objectId in the
returned list and every returned objectId names an expired entry; and
reserve, which sweeps first, also leaves no expired entry (given a
non-negative timeout, since its own fresh reservation is stamped at now). -/
theorem recycleExpired_spec (p : CoinPool) (now : Int)
    (h0 : 0 ≤ p.reservationTimeoutMs) :
    (∀ c ∈ ((p.recycleExpired now).2).coins,
        ¬(c.status = CoinStatus.reserved ∧
          ∃ tr, c.reservedAt = some tr ∧ p.reservationTimeoutMs < now - tr))
  ∧ (∀ c ∈ ((p.recycleExpired now).2).coins, c ∈ p.coins)
  ∧ (∀ c ∈ p.coins,
      (c.status = CoinStatus.reserved ∧
        ∃ tr, c.reservedAt = some tr ∧ p.reservationTimeoutMs < now - tr) →
      c.objectId ∈ (p.recycleExpired now).1)
  ∧ (∀ id ∈ (p.recycleExpired now).1,
      ∃ c ∈ p.coins, c.objectId = id ∧ c.status = CoinStatus.reserved ∧
        ∃ tr, c.reservedAt = some tr ∧ p.reservationTimeoutMs < now - tr)
  ∧ (∀ (mb : Option Int), ∀ c ∈ ((p.reserve now mb).2).coins,
      ¬(c.status = CoinStatus.reserved ∧
        ∃ tr, c.reservedAt = some tr ∧ p.reservationTimeoutMs < now - tr)) := by
  refine ⟨?_, ?_, ?_, ?_, ?_⟩
  · intro c hc habs
    have h2 := (sweepCoins_kept_mem _ _ _ c hc).2
    rw [← coinExpired_iff p.reservationTimeoutMs now c] at habs
    rw [habs] at h2
    exact Bool.noConfusion h2
  · intro c hc
    exact (sweepCoins_kept_mem _ _ _ c hc).1
  · intro c hc habs
    exact sweepCoins_expired_listed _ _ _ c hc
      ((coinExpired_iff _ _ _).mpr habs)
  · intro id hid
    rcases sweepCoins_ids_expired _ _ _ id hid with ⟨c, hc, rfl, hexp⟩
    exact ⟨c, hc, rfl, (coinExpired_iff _ _ _).mp hexp⟩
  · intro mb c hc habs
    rcases scanReserve_mem _ _ _ c hc with h | ⟨c0, h0mem, rfl⟩
    · have h2 := (sweepCoins_kept_mem _ _ _ c h).2
      rw [← coinExpired_iff p.reservationTimeoutMs now c] at habs
      rw [habs] at h2
      exact Bool.noConfusion h2
    · rcases habs with ⟨_, tr, htr, hlt⟩
      have h5 : now = tr := Option.some.inj htr
      omega

/-- C6 witness: the recycleExpired and reserve guarantees instantiated on a
pool holding one expired reservation and one live coin. -/
theorem recycleExpired_spec_witness :
    let p0 : CoinPool := ⟨[⟨"c1", "1", "d1", 500000000, CoinStatus.reserved, some 0⟩,
      ⟨"c2", "1", "d2", 500000000, CoinStatus.available, none⟩], 3,
      500000000, 50000000, 30000⟩
    (∀ c ∈ ((p0.recycleExpired 40000).2).coins,
        ¬(c.status = CoinStatus.reserved ∧
          ∃ tr, c.reservedAt = some tr ∧ p0.reservationTimeoutMs < 40000 - tr))
  ∧ (∀ c ∈ p0.coins,
      (c.status = CoinStatus.reserved ∧
        ∃ tr, c.reservedAt = some tr ∧ p0.reservationTimeoutMs < 40000 - tr) →
      c.objectId ∈ (p0.recycleExpired 40000).1) := by
  have h := recycleExpired_spec
    ⟨[⟨"c1", "1", "d1", 500000000, CoinStatus.reserved, some 0⟩,
      ⟨"c2", "1", "d2", 500000000, CoinStatus.available, none⟩], 3,
      500000000, 50000000, 30000⟩ 40000 (by decide)
  exact ⟨h.1, h.2.2.1⟩

/-- C7: on a matching report, updateFromEffects charges
consumed = computation + storage - rebate + nonRefundableStorageFee
(defaulting to 0), clamps the new balance at zero, keeps the entry (with the
new reference, the new balance, status available and reservedAt cleared)
exactly when the new balance reaches minCoinBalance, deletes it otherwise;
and when the rebate exceeds the other costs combined the balance does not
decrease and the coin is kept (assuming it met the pool floor before). -/
theorem updateFromEffects_gas_accounting (p : CoinPool) (e : ExecutionEffects)
    (objectId : String) (coin : CoinEntry)
    (h1 : findEntry objectId p.coins = some coin)
    (h2 : e.gasObjectReference.objectId = objectId) :
    let consumed := e.gasUsed.computationCost + e.gasUsed.storageCost -
      e.gasUsed.storageRebate + e.gasUsed.nonRefundableStorageFee.getD 0
    let newBalance := max 0 (coin.balance - consumed)
    (p.minCoinBalance ≤ newBalance →
      (p.updateFromEffects e objectId).coins = updateEntry objectId
        (fun c => { c with version := e.gasObjectReference.version,
                           digest := e.gasObjectReference.digest,
                           balance := newBalance,
                           status := CoinStatus.available,
                           reservedAt := none }) p.coins)
  ∧ (newBalance < p.minCoinBalance →
      (p.updateFromEffects e objectId).coins = deleteEntry objectId p.coins)
  ∧ (e.gasUsed.computationCost + e.gasUsed.storageCost +
        e.gasUsed.nonRefundableStorageFee.getD 0 < e.gasUsed.storageRebate →
      p.minCoinBalance ≤ coin.balance →
      coin.balance ≤ newBalance ∧
        findEntry objectId (p.updateFromEffects e objectId).coins ≠ none) := by
  have hconsumed : e.gasUsed.computationCost + e.gasUsed.storageCost -
      e.gasUsed.storageRebate + e.gasUsed.nonRefundableStorageFee.getD 0 =
      totalGasOf e.gasUsed := rfl
  dsimp only
  rw [hconsumed]
  have hmax : (if coin.balance - totalGasOf e.gasUsed < 0 then (0 : Int)
      else coin.balance - totalGasOf e.gasUsed) =
      max 0 (coin.balance - totalGasOf e.gasUsed) := by
    rcases lt_or_le (coin.balance - totalGasOf e.gasUsed) 0 with h | h
    · rw [if_pos h]; exact (max_eq_left h.le).symm
    · rw [if_neg (not_lt.mpr h)]; exact (max_eq_right h).symm
  have hchar : (p.updateFromEffects e objectId).coins =
      if p.minCoinBalance ≤ max 0 (coin.balance - totalGasOf e.gasUsed) then
        updateEntry objectId
          (fun c => { c with version := e.gasObjectReference.version,
                             digest := e.gasObjectReference.digest,
                             balance := max 0 (coin.balance - totalGasOf e.gasUsed),
                             status := CoinStatus.available,
                             reservedAt := none }) p.coins
      else deleteEntry objectId p.coins := by
    unfold CoinPool.updateFromEffects
    rw [h1]
    dsimp only
    rw [if_neg (fun hne => hne h2), hmax, apply_ite CoinPool.coins]
  refine ⟨?_, ?_, ?_⟩
  · intro hge
    rw [hchar, if_pos hge]
  · intro hlt
    rw [hchar, if_neg (not_le.mpr hlt)]
  · intro hreb hfloor
    have hneg : totalGasOf e.gasUsed < 0 := by
      unfold totalGasOf; omega
    have hle : coin.balance ≤ max 0 (coin.balance - totalGasOf e.gasUsed) :=
      le_trans (by omega) (le_max_right _ _)
    refine ⟨hle, ?_⟩
    rw [hchar, if_pos (le_trans hfloor hle)]
    rw [findEntry_updateEntry objectId
      (fun c => { c with version := e.gasObjectReference.version,
                         digest := e.gasObjectReference.digest,
                         balance := max 0 (coin.balance - totalGasOf e.gasUsed),
                         status := CoinStatus.available,
                         reservedAt := none })
      p.coins (fun c => rfl), h1]
    simp

/-- C7 witness: the accounting theorem instantiated on a pool entry of
balance 500000000 with a 6000000 net fee. -/
theorem updateFromEffects_gas_accounting_witness :
    let p0 : CoinPool := ⟨[⟨"c1", "1", "d1", 500000000, CoinStatus.reserved, some 0⟩],
      3, 500000000, 50000000, 30000⟩
    let e0 : ExecutionEffects := ⟨⟨"c1", "2", "d2"⟩, ⟨5000000, 2000000, 1000000, none⟩⟩
    (p0.updateFromEffects e0 "c1").coins = updateEntry "c1"
      (fun c => { c with version := "2",
                         digest := "d2",
                         balance := max 0 ((500000000 : Int) - 6000000),
                         status := CoinStatus.available,
                         reservedAt := none }) p0.coins := by
  have h := updateFromEffects_gas_accounting
    ⟨[⟨"c1", "1", "d1", 500000000, CoinStatus.reserved, some 0⟩],
      3, 500000000, 50000000, 30000⟩
    ⟨⟨"c1", "2", "d2"⟩, ⟨5000000, 2000000, 1000000, none⟩⟩
    "c1" ⟨"c1", "1", "d1", 500000000, CoinStatus.reserved, some 0⟩ rfl rfl
  exact h.1 (by decide)

/-- C8: a report whose effects reference a different gas coin deletes the
reserved entry (the pool shrinks by one and the id is no longer tracked) and
reportExecution still returns normally rather than raising. -/
theorem misrouted_report_spec (pool : CoinPool) (r : GasCoinReservation)
    (ref : ObjectRefS) (gu : GasUsedS) (coin : CoinEntry)
    (hnodup : (pool.coins.map fun c => c.objectId).Nodup)
    (hfound : findEntry r.objectId pool.coins = some coin)
    (hmismatch : ref.objectId ≠ r.objectId) :
    ∃ pool2, reportExecution pool r ⟨some ref, some gu⟩ = .ok pool2
      ∧ findEntry r.objectId pool2.coins = none
      ∧ pool2.coins.length + 1 = pool.coins.length := by
  refine ⟨pool.updateFromEffects ⟨ref, gu⟩ r.objectId, rfl, ?_, ?_⟩
  · unfold CoinPool.updateFromEffects
    rw [hfound]
    dsimp only
    rw [if_pos hmismatch]
    exact findEntry_deleteEntry _ _ hnodup
  · unfold CoinPool.updateFromEffects
    rw [hfound]
    dsimp only
    rw [if_pos hmismatch]
    exact deleteEntry_length _ _ _ hfound

/-- C8 witness: a misrouted report on a two-coin pool deletes exactly the
reserved coin and returns ok. -/
theorem misrouted_report_spec_witness :
    ∃ pool2, reportExecution
      ⟨[⟨"ca", "1", "d1", 500000000, CoinStatus.reserved, some 0⟩,
        ⟨"cb", "1", "d2", 500000000, CoinStatus.available, none⟩], 3,
        500000000, 50000000, 30000⟩
      ⟨"ca", 0⟩ ⟨some ⟨"cb", "2", "d3"⟩, some ⟨1, 1, 0, none⟩⟩ = .ok pool2
      ∧ findEntry "ca" pool2.coins = none
      ∧ pool2.coins.length + 1 = 2 := by
  exact misrouted_report_spec
    ⟨[⟨"ca", "1", "d1", 500000000, CoinStatus.reserved, some 0⟩,
      ⟨"cb", "1", "d2", 500000000, CoinStatus.available, none⟩], 3,
      500000000, 50000000, 30000⟩
    ⟨"ca", 0⟩ ⟨"cb", "2", "d3"⟩ ⟨1, 1, 0, none⟩
    ⟨"ca", "1", "d1", 500000000, CoinStatus.reserved, some 0⟩
    (by decide) rfl (by decide)

/-- C10: reportExecution reads nothing of the reservation handle but its
objectId; two handles with the same objectId and different reservedAt values
produce identical results on any pool and effects. -/
theorem reportExecution_ignores_reservedAt (pool : CoinPool)
    (e : RawExecutionEffects) (r1 r2 : GasCoinReservation)
    (h : r1.objectId = r2.objectId) :
    reportExecution pool r1 e = reportExecution pool r2 e := by
  rcases e with ⟨go, gu⟩
  cases go <;> cases gu <;> simp [reportExecution, h]

/-- C10 witness: two handles for coin c1 reserved at different times yield
the same report outcome. -/
theorem reportExecution_ignores_reservedAt_witness :
    reportExecution
      ⟨[⟨"c1", "1", "d1", 500000000, CoinStatus.reserved, some 5⟩], 3,
        500000000, 50000000, 30000⟩
      ⟨"c1", 5⟩ ⟨some ⟨"c1", "2", "d2"⟩, some ⟨1, 1, 0, none⟩⟩ =
    reportExecution
      ⟨[⟨"c1", "1", "d1", 500000000, CoinStatus.reserved, some 5⟩], 3,
        500000000, 50000000, 30000⟩
      ⟨"c1", 99⟩ ⟨some ⟨"c1", "2", "d2"⟩, some ⟨1, 1, 0, none⟩⟩ :=
  reportExecution_ignores_reservedAt _ _ ⟨"c1", 5⟩ ⟨"c1", 99⟩ rfl

/-- C3 counterexample: a second reportExecution with the same (reservation,
effects) pair is not a no-op when the entry survives the first call: the
6000000 fee is deducted twice (494000000 then 488000000). -/
theorem reportExecution_not_idempotent :
    ∃ pool1 pool2,
      reportExecution
        ⟨[⟨"c1", "1", "d1", 500000000, CoinStatus.reserved, some 0⟩], 3,
          500000000, 50000000, 30000⟩
        ⟨"c1", 0⟩ ⟨some ⟨"c1", "2", "d2"⟩, some ⟨5000000, 2000000, 1000000, none⟩⟩ =
        .ok pool1
      ∧ reportExecution pool1 ⟨"c1", 0⟩
          ⟨some ⟨"c1", "2", "d2"⟩, some ⟨5000000, 2000000, 1000000, none⟩⟩ = .ok pool2
      ∧ pool2 ≠ pool1 := by
  refine ⟨⟨[⟨"c1", "2", "d2", 494000000, CoinStatus.available, none⟩], 3,
    500000000, 50000000, 30000⟩,
    ⟨[⟨"c1", "2", "d2", 488000000, CoinStatus.available, none⟩], 3,
    500000000, 50000000, 30000⟩, rfl, rfl, by decide⟩

/-- C3 (amended): a second reportExecution with the same (reservation,
effects) pair is a no-op when the first call left no entry for the
reservation objectId (entry already absent, deleted on identity mismatch, or
deleted for a balance below minCoinBalance); when the entry is kept the call
deducts the consumed fee again. -/
theorem reportExecution_idempotent_when_absent (pool pool1 : CoinPool)
    (r : GasCoinReservation) (e : RawExecutionEffects)
    (h1 : reportExecution pool r e = .ok pool1)
    (h2 : findEntry r.objectId pool1.coins = none) :
    reportExecution pool1 r e = .ok pool1 := by
  rcases e with ⟨go, gu⟩
  cases go with
  | none => simp [reportExecution] at h1
  | some ref =>
    cases gu with
    | none => simp [reportExecution] at h1
    | some g =>
      have : pool1.updateFromEffects ⟨ref, g⟩ r.objectId = pool1 := by
        unfold CoinPool.updateFromEffects
        rw [h2]
      simp only [reportExecution, this]

/-- C3 witness: after a misrouted report deletes the entry, repeating the
same report is a no-op. -/
theorem reportExecution_idempotent_when_absent_witness :
    reportExecution
      ⟨[], 3, 500000000, 50000000, 30000⟩ ⟨"c1", 0⟩
      ⟨some ⟨"cx", "2", "d2"⟩, some ⟨1, 1, 0, none⟩⟩ =
    .ok ⟨[], 3, 500000000, 50000000, 30000⟩ :=
  reportExecution_idempotent_when_absent
    ⟨[⟨"c1", "1", "d1", 500000000, CoinStatus.reserved, some 0⟩], 3,
      500000000, 50000000, 30000⟩
    ⟨[], 3, 500000000, 50000000, 30000⟩
    ⟨"c1", 0⟩ ⟨some ⟨"cx", "2", "d2"⟩, some ⟨1, 1, 0, none⟩⟩
    rfl (by decide)

/-- C4 counterexample: with only a dust coin on chain (neither usable nor a
source), initialize completes without any error and leaves the pool empty,
rather than failing with an InsufficientFunds error (no such code exists in
GasStationErrorCode). -/
theorem initializePool_dust_only_no_error :
    (∀ c ∈ [(⟨"dust", "1", "d1", 1000⟩ : FetchedCoin)],
      usableCoin ⟨[], 20, 500000000, 50000000, 30000⟩ c = false ∧
      sourceCoin ⟨[], 20, 500000000, 50000000, 30000⟩ c = false)
  ∧ (CoinPool.mk [] 20 500000000 50000000 30000).initializePool
      [⟨"dust", "1", "d1", 1000⟩] [] =
      (⟨[], 20, 500000000, 50000000, 30000⟩, none) := by
  constructor
  · intro c hc
    simp only [List.mem_singleton] at hc
    subst hc
    exact ⟨by decide, by decide⟩
  · decide

/-- C4 (amended): if the on-chain coin set contains no usable coin and no
source coin, initialize does not fail: it completes without error and leaves
the pool empty (the error taxonomy has no InsufficientFunds code). -/
theorem initializePool_no_coins_empty (p : CoinPool)
    (existing : List FetchedCoin) (created : List ObjectRefS)
    (hnousable : ∀ c ∈ existing, usableCoin p c = false)
    (hnosource : ∀ c ∈ existing, sourceCoin p c = false) :
    p.initializePool existing created = ({ p with coins := [] }, none) := by
  unfold CoinPool.initializePool
  dsimp only
  have hu : existing.filter (usableCoin { p with coins := [] }) = [] := by
    rw [List.filter_eq_nil_iff]
    intro c hc
    have h3 : usableCoin { p with coins := [] } c = false := hnousable c hc
    simp [h3]
  have hs : existing.filter (sourceCoin { p with coins := [] }) = [] := by
    rw [List.filter_eq_nil_iff]
    intro c hc
    have h3 : sourceCoin { p with coins := [] } c = false := hnosource c hc
    simp [h3]
  rw [hu, hs]
  rw [if_neg (by simp)]
  simp [List.take_nil]

/-- C4 witness: the amended behavior on a dust-only coin set. -/
theorem initializePool_no_coins_empty_witness :
    (CoinPool.mk [⟨"old", "1", "d0", 500000000, CoinStatus.available, none⟩]
      20 500000000 50000000 30000).initializePool [⟨"dust", "1", "d1", 49999999⟩] [] =
    (⟨[], 20, 500000000, 50000000, 30000⟩, none) :=
  initializePool_no_coins_empty
    ⟨[⟨"old", "1", "d0", 500000000, CoinStatus.available, none⟩],
      20, 500000000, 50000000, 30000⟩
    [⟨"dust", "1", "d1", 49999999⟩] []
    (by decide) (by decide)

/-- C5 counterexample: revalidatePool copies the on-chain balance into a
tracked entry without re-checking the floor, so a sequence of initialize
followed by revalidate leaves an entry with balance 10 below the 50000000
minCoinBalance. -/
theorem revalidatePool_breaks_floor :
    ∃ c ∈ (((CoinPool.mk [] 3 500000000 50000000 30000).initializePool
        [⟨"c1", "1", "d1", 500000000⟩] []).1.revalidatePool
        fun _ => some ⟨"2", "d2", some 10⟩).coins,
      c.balance < 50000000 := by decide

/-- C5 (amended): whenever minCoinBalance is at most targetCoinBalance,
every sequence of initialize, replenish, reserve, release, updateFromEffects
and recycleExpired operations preserves the floor: every entry of the
resulting pool has balance at least minCoinBalance. revalidatePool is the
exception: it refreshes balances from the chain without enforcing the floor. -/
theorem applyOps_balance_floor (p : CoinPool) (ops : List PoolOp)
    (hmt : p.minCoinBalance ≤ p.targetCoinBalance)
    (hinv : ∀ c ∈ p.coins, p.minCoinBalance ≤ c.balance) :
    ∀ c ∈ (applyOps p ops).coins, p.minCoinBalance ≤ c.balance := by
  induction ops generalizing p with
  | nil => exact hinv
  | cons op rest ih =>
    have hmin := applyOp_minCoinBalance p op
    have htgt := applyOp_targetCoinBalance p op
    have h2 := ih (applyOp p op)
      (by rw [hmin, htgt]; exact hmt)
      (by intro c hc; rw [hmin]; exact applyOp_inv p op hmt hinv c hc)
    intro c hc
    have hc2 : c ∈ (applyOps (applyOp p op) rest).coins := by
      simpa [applyOps] using hc
    have h3 := h2 c hc2
    rwa [hmin] at h3

/-- C5 witness: the floor holds after an initialize, reserve, report,
release, recycle sequence on a concrete pool. -/
theorem applyOps_balance_floor_witness :
    ((applyOps ⟨[], 3, 500000000, 50000000, 30000⟩
      [PoolOp.initOp [⟨"c1", "1", "d1", 500000000⟩] [],
       PoolOp.reserveOp 0 none,
       PoolOp.updateOp ⟨⟨"c1", "2", "d2"⟩, ⟨5000000, 2000000, 1000000, none⟩⟩ "c1",
       PoolOp.releaseOp "c1",
       PoolOp.recycleOp 100000]).coins.all
      fun c => decide ((50000000 : Int) ≤ c.balance)) = true := by
  rw [List.all_eq_true]
  intro c hc
  simp only [decide_eq_true_eq]
  exact applyOps_balance_floor ⟨[], 3, 500000000, 50000000, 30000⟩
    [PoolOp.initOp [⟨"c1", "1", "d1", 500000000⟩] [],
     PoolOp.reserveOp 0 none,
     PoolOp.updateOp ⟨⟨"c1", "2", "d2"⟩, ⟨5000000, 2000000, 1000000, none⟩⟩ "c1",
     PoolOp.releaseOp "c1",
     PoolOp.recycleOp 100000]
    (by decide) (by intro c2 hc2; simp at hc2) c hc

/-- C9 counterexample: with epochBoundaryWindow 5000, expiration 10000 and
now 20000 the boundary branch is taken and the computed wait is 1000 ms,
which is smaller than the epochBoundaryWindow. -/
theorem boundary_wait_below_window :
    getGasPriceStep (some ⟨1000, "5", 10000, 0⟩) 5000 20000 =
      .waitThenRefresh 1000 ∧ ¬((5000 : Int) ≤ 1000) := by decide

/-- C9 (amended): inside the boundary window (now at or past expiration
minus epochBoundaryWindow) getGasPrice waits
min(30000, max(1000, expiration + epochBoundaryWindow - now)) ms; the wait
is always between 1000 and 30000 ms, hence at least epochBoundaryWindow
whenever epochBoundaryWindow is at most 1000 ms (its default). -/
theorem boundary_wait_formula (c : GasPriceCache) (window now : Int)
    (h : c.expiration - window ≤ now) :
    ∃ w, getGasPriceStep (some c) window now = .waitThenRefresh w
      ∧ w = min 30000 (max 1000 (c.expiration + window - now))
      ∧ 1000 ≤ w ∧ w ≤ 30000
      ∧ (window ≤ 1000 → window ≤ w) := by
  refine ⟨min (max (c.expiration + window - now) 1000) 30000, ?_, ?_, ?_, ?_, ?_⟩
  · unfold getGasPriceStep
    dsimp only
    rw [if_neg (by omega)]
  · rw [min_comm, max_comm]
  · exact le_min (le_max_right _ _) (by norm_num)
  · exact min_le_right _ _
  · intro hw
    exact le_trans hw (le_min (le_max_right _ _) (by norm_num))

/-- C9 witness: the wait formula instantiated just past the boundary with
the default 1000 ms window. -/
theorem boundary_wait_formula_witness :
    ∃ w, getGasPriceStep (some ⟨1000, "5", 10000, 0⟩) 1000 10500 =
        .waitThenRefresh w
      ∧ w = min 30000 (max 1000 ((10000 : Int) + 1000 - 10500))
      ∧ 1000 ≤ w ∧ w ≤ 30000
      ∧ ((1000 : Int) ≤ 1000 → (1000 : Int) ≤ w) :=
  boundary_wait_formula ⟨1000, "5", 10000, 0⟩ 1000 10500 (by decide)

-- ─── claim theorems: sponsor level ──────────────────────────────────

theorem sponsorTransaction_reduce (pool : CoinPool) (env : SponsorEnv)
    (sender : String) (gasBudget : Option Int)
    (requestPolicy defaultPolicy : Option SponsorPolicy)
    (coin : CoinEntry) (pool1 : CoinPool)
    (hsender : suiAddressValid sender = true)
    (hval : env.validateOutcome = none)
    (hres : pool.reserve env.now gasBudget = (some coin, pool1)) :
    sponsorTransaction true pool env sender gasBudget requestPolicy defaultPolicy =
      (match sponsorTryBlock env sender (requestPolicy.orElse fun _ => defaultPolicy)
          coin with
       | .error e => (.error e, pool1.release coin.objectId)
       | .ok out => (.ok out, pool1)) := by
  unfold sponsorTransaction
  rw [if_neg (by simp)]
  dsimp only
  rw [if_neg (by simp [hsender])]
  rw [hval]
  cases hpol : requestPolicy.orElse fun _ => defaultPolicy with
  | none =>
    dsimp only
    rw [hres]
  | some pl =>
    dsimp only
    rw [hres]

/-- C2: once sponsorTransaction has reserved a coin (the pre-reservation
guards passing), any error outcome leaves the pool in exactly the state
obtained by releasing that reservation: the failed call keeps no coin
reserved. -/
theorem sponsor_releases_on_error (pool : CoinPool) (env : SponsorEnv)
    (sender : String) (gasBudget : Option Int)
    (requestPolicy defaultPolicy : Option SponsorPolicy)
    (coin : CoinEntry) (pool1 : CoinPool) (e : GasStationError)
    (hsender : suiAddressValid sender = true)
    (hval : env.validateOutcome = none)
    (hres : pool.reserve env.now gasBudget = (some coin, pool1))
    (herr : (sponsorTransaction true pool env sender gasBudget requestPolicy
      defaultPolicy).1 = .error e) :
    (sponsorTransaction true pool env sender gasBudget requestPolicy
      defaultPolicy).2 = pool1.release coin.objectId := by
  rw [sponsorTransaction_reduce pool env sender gasBudget requestPolicy defaultPolicy
    coin pool1 hsender hval hres] at herr ⊢
  cases htry : sponsorTryBlock env sender (requestPolicy.orElse fun _ => defaultPolicy)
      coin with
  | error e2 => rfl
  | ok out =>
    rw [htry] at herr
    simp at herr

/-- C2 witness: a parse failure (BUILD_FAILED) after reservation leaves the
pool equal to the post-reserve pool with the coin released. -/
theorem sponsor_releases_on_error_witness :
    (sponsorTransaction true
      ⟨[⟨"c1", "1", "d1", 500000000, CoinStatus.available, none⟩], 3,
        500000000, 50000000, 30000⟩
      ⟨none, none, none, none, 1000, 0⟩ "0xab" none none none).2 =
    (CoinPool.mk [⟨"c1", "1", "d1", 500000000, CoinStatus.reserved, some 0⟩]
      3 500000000 50000000 30000).release "c1" :=
  sponsor_releases_on_error _ _ _ _ _ _
    ⟨"c1", "1", "d1", 500000000, CoinStatus.reserved, some 0⟩
    ⟨[⟨"c1", "1", "d1", 500000000, CoinStatus.reserved, some 0⟩], 3,
      500000000, 50000000, 30000⟩
    ⟨.BUILD_FAILED, "Invalid transaction kind bytes"⟩
    (by decide) (by decide) (by decide) (by rfl)

/-- C1: assertNoGasCoinUsage throws a GasStationError with code
POLICY_VIOLATION iff some command has a GasCoin argument under the
getCommandArguments enumeration (SplitCoins coin and amounts,
TransferObjects objects and address, MergeCoins destination and sources,
MoveCall arguments, MakeMoveVec elements, Upgrade ticket, Publish none);
and sponsorTransaction runs the check unless the effective policy has
allowGasCoinUsage = true: with a GasCoin argument present it fails with
POLICY_VIOLATION when the flag is unset, and succeeds despite the GasCoin
when the flag is set (build and sign succeeding, no budget cap). -/
theorem gasCoin_drain_check_spec (commands : List Command) (sender : String) :
    ((∃ e, assertNoGasCoinUsage commands sender = .error e ∧
        e.code = GasStationErrorCode.POLICY_VIOLATION) ↔
      ∃ cmd ∈ commands, ArgKind.GasCoin ∈ getCommandArguments cmd)
  ∧ ∀ (pool : CoinPool) (env : SponsorEnv) (gasBudget : Option Int)
      (requestPolicy defaultPolicy : Option SponsorPolicy) (coin : CoinEntry)
      (pool1 : CoinPool),
      suiAddressValid sender = true →
      env.validateOutcome = none →
      pool.reserve env.now gasBudget = (some coin, pool1) →
      env.parsedCommands = some commands →
      (∃ cmd ∈ commands, ArgKind.GasCoin ∈ getCommandArguments cmd) →
      ((effectiveAllowGasCoin (requestPolicy.orElse fun _ => defaultPolicy) = false →
        ∃ e, (sponsorTransaction true pool env sender gasBudget requestPolicy
          defaultPolicy).1 = .error e ∧
          e.code = GasStationErrorCode.POLICY_VIOLATION)
      ∧ (effectiveAllowGasCoin (requestPolicy.orElse fun _ => defaultPolicy) = true →
          ∀ built sig, env.buildOutcome = some built → env.signOutcome = some sig →
          effectiveMaxBudget (requestPolicy.orElse fun _ => defaultPolicy) = none →
          ∃ out, (sponsorTransaction true pool env sender gasBudget requestPolicy
            defaultPolicy).1 = .ok out)) := by
  have part1 : (∃ e, assertNoGasCoinUsage commands sender = .error e ∧
      e.code = GasStationErrorCode.POLICY_VIOLATION) ↔
      ∃ cmd ∈ commands, ArgKind.GasCoin ∈ getCommandArguments cmd := by
    constructor
    · rintro ⟨e, herr, hcode⟩
      by_contra hno
      push_neg at hno
      have hok := (assertNoGasCoinUsage_ok_iff commands sender).mpr hno
      rw [hok] at herr
      exact Except.noConfusion herr
    · intro hex
      cases hres : assertNoGasCoinUsage commands sender with
      | ok u =>
        cases u
        have hall := (assertNoGasCoinUsage_ok_iff commands sender).mp hres
        rcases hex with ⟨cmd, hc, hg⟩
        exact absurd hg (hall cmd hc)
      | error e =>
        exact ⟨e, rfl, assertNoGasCoinUsage_error_code commands sender e hres⟩
  refine ⟨part1, ?_⟩
  intro pool env gasBudget requestPolicy defaultPolicy coin pool1
    hsender hval hres hparsed hex
  have hred := sponsorTransaction_reduce pool env sender gasBudget requestPolicy
    defaultPolicy coin pool1 hsender hval hres
  constructor
  · intro hallow
    obtain ⟨e, herr, hcode⟩ := part1.mpr hex
    have htry : sponsorTryBlock env sender
        (requestPolicy.orElse fun _ => defaultPolicy) coin = .error e := by
      unfold sponsorTryBlock
      rw [hparsed]
      dsimp only
      rw [hallow]
      rw [if_neg (by simp)]
      rw [herr]
    refine ⟨e, ?_, hcode⟩
    rw [hred, htry]
  · intro hallow built sig hbuilt hsig hnomax
    have htry : sponsorTryBlock env sender
        (requestPolicy.orElse fun _ => defaultPolicy) coin =
        .ok ⟨built.bytesB64, sig, built.builtBudget, env.gasPrice,
          ⟨coin.objectId, coin.reservedAt.getD env.now⟩⟩ := by
      unfold sponsorTryBlock
      rw [hparsed]
      dsimp only
      rw [hallow, if_pos rfl, hbuilt]
      dsimp only
      rw [hsig]
      dsimp only
      rw [hnomax]
    exact ⟨⟨built.bytesB64, sig, built.builtBudget, env.gasPrice,
      ⟨coin.objectId, coin.reservedAt.getD env.now⟩⟩, by rw [hred, htry]⟩

/-- C1 witness: a SplitCoins command drawing on the gas coin is rejected by
sponsorTransaction with POLICY_VIOLATION under an absent policy. -/
theorem gasCoin_drain_check_spec_witness :
    ∃ e, (sponsorTransaction true
      ⟨[⟨"c1", "1", "d1", 500000000, CoinStatus.available, none⟩], 3,
        500000000, 50000000, 30000⟩
      ⟨none, some [Command.SplitCoins ArgKind.GasCoin [ArgKind.Pure]], none, none,
        1000, 0⟩
      "0xab" none none none).1 = .error e ∧
      e.code = GasStationErrorCode.POLICY_VIOLATION :=
  ((gasCoin_drain_check_spec [Command.SplitCoins ArgKind.GasCoin [ArgKind.Pure]]
      "0xab").2
    ⟨[⟨"c1", "1", "d1", 500000000, CoinStatus.available, none⟩], 3,
      500000000, 50000000, 30000⟩
    ⟨none, some [Command.SplitCoins ArgKind.GasCoin [ArgKind.Pure]], none, none,
      1000, 0⟩
    none none none
    ⟨"c1", "1", "d1", 500000000, CoinStatus.reserved, some 0⟩
    ⟨[⟨"c1", "1", "d1", 500000000, CoinStatus.reserved, some 0⟩], 3,
      500000000, 50000000, 30000⟩
    (by decide) (by decide) (by decide) (by decide)
    ⟨Command.SplitCoins ArgKind.GasCoin [ArgKind.Pure],
      List.mem_singleton.mpr rfl, List.mem_cons_self _ _⟩).1 (by decide)

end GasStation
